import Mathlib

/-!
Shallow embedding of the actor-runtime execution core (`src/context.rs` of
`duckquant/actix-async`).

The embedding models the per-actor driver loop as a deterministic,
trace-producing state machine.  Asynchronous nondeterminism (what the mailbox
yields at each pull) is captured by an explicit oracle: a list of
`MailboxEvent`s consumed by the loop, one per receive attempt.  Handler
bodies are opaque (they only need shared/exclusive access to the opaque
actor value), so invoking a handler is recorded as an `Action` in the trace
rather than as a state change.

Types that live in the repository outside `src/` (`message.rs`, `actor.rs`)
are reconstructed from the spec and are marked `Modelled from the spec:` in
their doc comments.  Everything else is translated directly from
`src/context.rs`.
-/

namespace ActixAsync

/-- Modelled from the spec: lifecycle states of an actor
(`actor.rs::ActorState`, not under `src/`).  The spec's state machine is
Stop → Running → \x7bStopGraceful | Stop\x7d. -/
inductive ActorState
  | Stop
  | Running
  | StopGraceful
deriving DecidableEq

/-- Modelled from the spec: an opaque boxed message object
(`message.rs::MessageObject`, not under `src/`).  `id` identifies the
message; `finished` is the `finished()` predicate consulted during panic
recovery (`Drop for ContextWithActor`). -/
structure MessageObject where
  id : Nat
  finished : Bool
deriving DecidableEq

/-- Modelled from the spec: a recurring-message template stored in the
interval queue (`message.rs::IntervalMessage`): a concurrent (`Ref`) or
exclusive (`Mut`) template. -/
inductive IntervalMessage
  | Ref (m : MessageObject)
  | Mut (m : MessageObject)
deriving DecidableEq

/-- Modelled from the spec: the mailbox message envelope
(`message.rs::ActorMessage`, not under `src/`).  Acknowledgement channels
(`oneshot::Sender<()>`) are identified by a `Nat`. -/
inductive ActorMessage
  | Ref (m : MessageObject)
  | Mut (m : MessageObject)
  | DelayToken (t : Nat)
  | DelayTokenCancel (t : Nat)
  | IntervalToken (t : Nat)
  | IntervalTokenCancel (t : Nat)
  | ActorState (st : ActorState) (notify : Option Nat)
deriving DecidableEq

/-- Modelled from the spec: `IntervalMessage::clone_actor_message`
(`message.rs`): firing clones the template into a fresh `ActorMessage`
of the same concurrent/exclusive kind. -/
def IntervalMessage.clone_actor_message : IntervalMessage → ActorMessage
  | .Ref m => .Ref m
  | .Mut m => .Mut m

/-- A `slab::Slab`-style token registry: association list of live entries
keyed by token plus a fresh-token counter.  `insert` assigns a stable token,
`removeKey` deletes by token, removal never renumbers other live entries
(tokens in a real `Slab` are unique, so deleting every pair with the key is
deleting the one entry with that key). -/
structure Slab (α : Type) where
  entries : List (Nat × α)
  next : Nat
deriving DecidableEq

namespace Slab

def empty {α : Type} : Slab α := ⟨[], 0⟩

/-- `Slab::insert`: store a value, returning the new registry and the token. -/
def insert {α : Type} (s : Slab α) (v : α) : Slab α × Nat :=
  (⟨s.entries ++ [(s.next, v)], s.next + 1⟩, s.next)

/-- Lookup of a token among the live entries. -/
def lookupTok {α : Type} : List (Nat × α) → Nat → Option α
  | [], _ => none
  | e :: l, t => if e.1 = t then some e.2 else lookupTok l t

/-- `Slab::get` (by token). -/
def get {α : Type} (s : Slab α) (t : Nat) : Option α :=
  lookupTok s.entries t

/-- `Slab::contains`. -/
def containsTok {α : Type} (s : Slab α) (t : Nat) : Bool :=
  (s.get t).isSome

/-- `Slab::remove` (the state part; the removed value is read with `get`). -/
def removeKey {α : Type} (s : Slab α) (t : Nat) : Slab α :=
  ⟨s.entries.filter (fun e => e.1 != t), s.next⟩

/-- Well-formedness maintained by the slab: every live token was issued
before the current fresh counter. -/
def WF {α : Type} (s : Slab α) : Prop :=
  ∀ e ∈ s.entries, e.1 < s.next

instance {α : Type} (s : Slab α) : Decidable s.WF := by
  unfold WF; infer_instance

theorem lookupTok_filter_self {α : Type} (l : List (Nat × α)) (t : Nat) :
    lookupTok (l.filter (fun e => e.1 != t)) t = none := by
  induction l with
  | nil => rfl
  | cons e l ih =>
    by_cases h : e.1 = t
    · simpa [List.filter_cons, h] using ih
    · simpa [List.filter_cons, h, lookupTok] using ih

theorem lookupTok_filter_other {α : Type} (l : List (Nat × α)) (t t' : Nat)
    (h : t' ≠ t) :
    lookupTok (l.filter (fun e => e.1 != t)) t' = lookupTok l t' := by
  induction l with
  | nil => rfl
  | cons e l ih =>
    by_cases he : e.1 = t
    · have h2 : ¬ (e.1 = t') := by omega
      rw [List.filter_cons_of_neg (by simp [he])]
      rw [show lookupTok (e :: l) t' = lookupTok l t' from by simp [lookupTok, h2]]
      exact ih
    · rw [List.filter_cons_of_pos (by simp [he])]
      by_cases h2 : e.1 = t'
      · simp [lookupTok, h2]
      · simp only [lookupTok, if_neg h2]
        exact ih

theorem lookupTok_append_fresh {α : Type} (l : List (Nat × α)) (n : Nat) (v : α)
    (h : ∀ e ∈ l, e.1 < n) :
    lookupTok (l ++ [(n, v)]) n = some v := by
  induction l with
  | nil => simp [lookupTok]
  | cons e l ih =>
    have h1 : e.1 < n := h e (by simp)
    have h2 : ¬ (e.1 = n) := by omega
    simpa [lookupTok, h2] using ih (fun e he => h e (by simp [he]))

theorem get_removeKey_self {α : Type} (s : Slab α) (t : Nat) :
    (s.removeKey t).get t = none := by
  simp [get, removeKey, lookupTok_filter_self]

theorem get_removeKey_other {α : Type} (s : Slab α) (t t' : Nat) (h : t' ≠ t) :
    (s.removeKey t).get t' = s.get t' := by
  simp [get, removeKey, lookupTok_filter_other _ _ _ h]

theorem removeKey_removeKey {α : Type} (s : Slab α) (t : Nat) :
    (s.removeKey t).removeKey t = s.removeKey t := by
  simp only [removeKey, Slab.mk.injEq, and_true]
  induction s.entries with
  | nil => rfl
  | cons e l ih =>
    by_cases h : e.1 = t
    · simpa [List.filter_cons, h] using ih
    · simpa [List.filter_cons, h] using ih

theorem get_insert_self {α : Type} (s : Slab α) (v : α) (hwf : s.WF) :
    (s.insert v).1.get (s.insert v).2 = some v := by
  simp [get, insert, lookupTok_append_fresh s.entries s.next v hwf]

theorem containsTok_eq_false_iff {α : Type} (s : Slab α) (t : Nat) :
    s.containsTok t = false ↔ s.get t = none := by
  simp [containsTok, Option.isSome]
  cases s.get t <;> simp

end Slab

/-- `Context<A>` (`context.rs:20`): lifecycle state, the two token
registries, and the mailbox receive end (only its open/closed flag is
observable to this core; the messages it yields are the oracle of the
driver loop).  The weak self-address is used only by the background tasks,
which are modelled separately (`laterTask`). -/
structure Context where
  state : ActorState
  interval_queue : Slab IntervalMessage
  delay_queue : Slab ActorMessage
  mailboxClosed : Bool
deriving DecidableEq

/-- `Context::new` (`context.rs:41`): starts in the `Stop` state with empty
queues. -/
def Context.new : Context :=
  { state := ActorState.Stop
    interval_queue := Slab.empty
    delay_queue := Slab.empty
    mailboxClosed := false }

/-- `Context::stop` (`context.rs:100`): close the mailbox for new sends and
mark the state `StopGraceful`. -/
def Context.stop (c : Context) : Context :=
  { c with mailboxClosed := true, state := ActorState.StopGraceful }

/-- `Context::later` (`context.rs:264`), the registry part: store the
one-shot message in `delay_queue`, obtaining its token.  The spawned
background timer task is modelled by `laterTask`. -/
def Context.later (msg : ActorMessage) (c : Context) : Context × Nat :=
  let r := c.delay_queue.insert msg
  ({ c with delay_queue := r.1 }, r.2)

/-- `Context::handle_delay_cancel` (`context.rs:332`): remove the entry if
the token is still present, otherwise do nothing. -/
def handle_delay_cancel (t : Nat) (c : Context) : Context :=
  if c.delay_queue.containsTok t then
    { c with delay_queue := c.delay_queue.removeKey t }
  else c

/-- `Context::handle_interval_cancel` (`context.rs:338`). -/
def handle_interval_cancel (t : Nat) (c : Context) : Context :=
  if c.interval_queue.containsTok t then
    { c with interval_queue := c.interval_queue.removeKey t }
  else c

/-- `ContextWithActor<A>` (`context.rs:411`): the driver owning the actor
(opaque, identified by a `Nat`), the context, the at-most-one cached
exclusive message, the concurrent-message cache, and the recorded
acknowledgement channel. -/
structure ContextWithActor where
  ctx : Context
  actor : Nat
  cache_mut : Option MessageObject
  cache_ref : List MessageObject
  drop_notify : Option Nat
deriving DecidableEq

/-- `ContextWithActor::new` (`context.rs:450`). -/
def ContextWithActor.new (actor : Nat) (ctx : Context) : ContextWithActor :=
  { ctx := ctx
    actor := actor
    cache_mut := none
    cache_ref := []
    drop_notify := none }

/-- Observable events of one driver execution.  Handler invocations are
side effects of opaque user code, so the embedding records them in a trace:
a concurrent handler future pushed into the `FuturesUnordered` pool is
`concStart`, its resolution is `concFinish`; an exclusive `handle_wait`
call is bracketed by `exclStart`/`exclFinish`; `cached` records a push into
the concurrent cache. -/
inductive Action
  | onStart
  | onStop
  | cached (m : MessageObject)
  | concStart (m : MessageObject)
  | concFinish (m : MessageObject)
  | exclStart (m : MessageObject)
  | exclFinish (m : MessageObject)
  | stopCalled
  | notifySent (ch : Nat)
  | panicked
  | respawn
deriving DecidableEq

/-- Trace of one full flush of the concurrent cache: every cached handler
future is pushed into the pool (`concStart`, in cache order), then the pool
is driven to full completion (`concFinish` for each). -/
def flushTr (c : List MessageObject) : List Action :=
  c.map Action.concStart ++ c.map Action.concFinish

/-- `Context::try_handle_concurrent` (`context.rs:284`): if the cache is
non-empty, push every cached message's handler future into the unordered
pool, drain the pool to completion, and clear the cache. -/
def try_handle_concurrent (c : List MessageObject) :
    List Action × List MessageObject :=
  if c.isEmpty then ([], c)
  else (c.map Action.concStart ++ c.map Action.concFinish, [])

/-- `Context::handle_exclusive` (`context.rs:316`): park the message in
`cache_mut` (in case of a panic before it is handled), flush the concurrent
cache first, then pop the parked message and run its `handle_wait` to
completion. -/
def handle_exclusive (msg : MessageObject) (s : ContextWithActor) :
    List Action × ContextWithActor :=
  let s1 := { s with cache_mut := some msg }
  let f := try_handle_concurrent s1.cache_ref
  let s2 := { s1 with cache_ref := f.2 }
  (f.1 ++ [Action.exclStart msg, Action.exclFinish msg],
   { s2 with cache_mut := none })

/-- `Context::handle_message` (`context.rs:345`): dispatch one mailbox
message; returns the trace, the new driver state, and whether the loop must
force-stop. -/
def handle_message (msg : ActorMessage) (s : ContextWithActor) :
    List Action × ContextWithActor × Bool :=
  match msg with
  | ActorMessage.Mut m =>
      let r := handle_exclusive m s
      (r.1, r.2, false)
  | ActorMessage.Ref m =>
      ([Action.cached m], { s with cache_ref := s.cache_ref ++ [m] }, false)
  | ActorMessage.DelayToken t =>
      if s.ctx.delay_queue.containsTok t then
        let v := s.ctx.delay_queue.get t
        let s1 :=
          { s with ctx :=
              { s.ctx with delay_queue := s.ctx.delay_queue.removeKey t } }
        match v with
        | some (ActorMessage.Ref m) =>
            ([Action.cached m],
             { s1 with cache_ref := s1.cache_ref ++ [m] }, false)
        | some (ActorMessage.Mut m) =>
            let r := handle_exclusive m s1
            (r.1, r.2, false)
        | _ => ([Action.panicked], s1, false)
      else ([], s, false)
  | ActorMessage.IntervalToken t =>
      match s.ctx.interval_queue.get t with
      | none => ([], s, false)
      | some im =>
          match im.clone_actor_message with
          | ActorMessage.Mut m =>
              let r := handle_exclusive m s
              (r.1, r.2, false)
          | ActorMessage.Ref m =>
              ([Action.cached m],
               { s with cache_ref := s.cache_ref ++ [m] }, false)
          | _ => ([Action.panicked], s, false)
  | ActorMessage.DelayTokenCancel t =>
      ([], { s with ctx := handle_delay_cancel t s.ctx }, false)
  | ActorMessage.IntervalTokenCancel t =>
      ([], { s with ctx := handle_interval_cancel t s.ctx }, false)
  | ActorMessage.ActorState st notify =>
      let s1 := { s with drop_notify := notify }
      if st ≠ ActorState.Running then
        ([Action.stopCalled], { s1 with ctx := s1.ctx.stop },
         decide (st = ActorState.Stop))
      else ([], s1, decide (st = ActorState.Stop))

/-- Oracle for one receive attempt of the loop (`context.rs:488`):
`recvMsg m` is `try_recv()` returning `Ok(m)`; `emptyThen o` is `try_recv()`
returning `Empty` followed by the blocking `recv().await` resolving to
`Some m` (`o = some m`) or `None` = channel closed (`o = none`);
`closed` is `try_recv()` returning `Closed`. -/
inductive MailboxEvent
  | recvMsg (m : ActorMessage)
  | emptyThen (o : Option ActorMessage)
  | closed
deriving DecidableEq

/-- The receive loop of `ContextWithActor::run` (`context.rs:488`-`535`).
Returns the trace, the final driver state, and whether the loop exited
(`true`) or the oracle ran out while the loop was still pulling (`false`). -/
def runLoop : List MailboxEvent → ContextWithActor →
    List Action × ContextWithActor × Bool
  | [], s => ([], s, false)
  | MailboxEvent.recvMsg m :: rest, s =>
      let r := handle_message m s
      if r.2.2 = true then (r.1, r.2.1, true)
      else
        let l := runLoop rest r.2.1
        (r.1 ++ l.1, l.2)
  | MailboxEvent.emptyThen o :: rest, s =>
      let f := try_handle_concurrent s.cache_ref
      let s1 := { s with cache_ref := f.2 }
      match o with
      | some m =>
          let r := handle_message m s1
          if r.2.2 = true then (f.1 ++ r.1, r.2.1, true)
          else
            let l := runLoop rest r.2.1
            (f.1 ++ r.1 ++ l.1, l.2)
      | none => (f.1, s1, true)
  | MailboxEvent.closed :: _, s =>
      let s1 := { s with ctx := s.ctx.stop }
      let f := try_handle_concurrent s1.cache_ref
      (Action.stopCalled :: f.1, { s1 with cache_ref := f.2 }, true)

/-- Trace of replaying the parked exclusive message at loop entry
(`if let Some(mut msg) = cache_mut.take() ...`, `context.rs:483`). -/
def exclReplayTr : Option MessageObject → List Action
  | some m => [Action.exclStart m, Action.exclFinish m]
  | none => []

/-- `ContextWithActor::run` (`context.rs:470`): flush any cached concurrent
work, replay any parked exclusive message, then enter the receive loop; the
actor's stop hook runs when the loop exits. -/
def run (events : List MailboxEvent) (s : ContextWithActor) :
    List Action × ContextWithActor × Bool :=
  let f := try_handle_concurrent s.cache_ref
  let s0 := { s with cache_ref := f.2 }
  let trM := exclReplayTr s0.cache_mut
  let s1 := { s0 with cache_mut := none }
  let l := runLoop events s1
  if l.2.2 = true then (f.1 ++ trM ++ l.1 ++ [Action.onStop], l.2.1, true)
  else (f.1 ++ trM ++ l.1, l.2.1, false)

/-- `ContextWithActor::first_run` (`context.rs:460`): run the start hook,
promote the state to `Running`, then enter `run`. -/
def first_run (events : List MailboxEvent) (s : ContextWithActor) :
    List Action × ContextWithActor × Bool :=
  let s1 := { s with ctx := { s.ctx with state := ActorState.Running } }
  let r := run events s1
  (Action.onStart :: r.1, r.2)

/-- `impl Drop for ContextWithActor` (`context.rs:431`): on unwind while
the actor is still `Running`, prune the already-finished cached entries and
respawn a task that re-runs the same driver state (returned as `some _`);
otherwise signal the recorded acknowledgement channel, if any. -/
def dropCWA (panicking : Bool) (s : ContextWithActor) :
    List Action × Option ContextWithActor :=
  if panicking = true ∧ s.ctx.state = ActorState.Running then
    ([Action.respawn],
     some { s with cache_ref := s.cache_ref.filter (fun m => !m.finished) })
  else
    match s.drop_notify with
    | some ch => ([Action.notifySent ch], none)
    | none => ([], none)

/-- Outcome of the `select(rx_cancel, sleep)` race inside the background
task spawned by `Context::later` (`context.rs:269`): the cancellation
handle fired first, the handle was dropped un-invoked, or the timer fired
first. -/
inductive LaterOutcome
  | cancelled
  | handleDropped
  | timerFired
deriving DecidableEq

/-- The background timer task of `Context::later` (`context.rs:269`-`279`):
the messages it sends into the mailbox, by race outcome.  A cancellation
sends `DelayTokenCancel` and returns; a dropped handle finishes the sleep
and then sends `DelayToken` exactly like an undisturbed timer. -/
def laterTask (token : Nat) : LaterOutcome → List ActorMessage
  | LaterOutcome.cancelled => [ActorMessage.DelayTokenCancel token]
  | LaterOutcome.handleDropped => [ActorMessage.DelayToken token]
  | LaterOutcome.timerFired => [ActorMessage.DelayToken token]

/-- The state-mutating operations that can run against a live context after
`first_run` has completed: `Context::stop` (also invoked by the closed arm
of the receive loop and by handlers) and `Context::handle_message`. -/
inductive LifeOp
  | stopOp
  | handleMsg (m : ActorMessage)

/-- State effect of one `LifeOp` on the driver. -/
def applyLife (s : ContextWithActor) : LifeOp → ContextWithActor
  | LifeOp.stopOp => { s with ctx := s.ctx.stop }
  | LifeOp.handleMsg m => (handle_message m s).2.1

/-- Number of occurrences of an action in a trace. -/
def cntAct (a : Action) : List Action → Nat
  | [] => 0
  | b :: tr => (if b = a then 1 else 0) + cntAct a tr

/-- Number of occurrences of a message in a cache. -/
def cntMsg (m : MessageObject) : List MessageObject → Nat
  | [] => 0
  | x :: c => (if x = m then 1 else 0) + cntMsg m c

theorem cntAct_append (a : Action) (l1 l2 : List Action) :
    cntAct a (l1 ++ l2) = cntAct a l1 + cntAct a l2 := by
  induction l1 with
  | nil => simp [cntAct]
  | cons b l1 ih => simp [cntAct, ih]; omega

theorem cntAct_eq_zero_of_not_mem {a : Action} {l : List Action}
    (h : a ∉ l) : cntAct a l = 0 := by
  induction l with
  | nil => rfl
  | cons b l ih =>
    have hb : ¬ (b = a) := fun hh => h (hh ▸ List.mem_cons_self b l)
    simp only [cntAct, if_neg hb, Nat.zero_add]
    exact ih (fun hh => h (List.mem_cons_of_mem b hh))

theorem cntAct_concStart_map_concStart (m : MessageObject)
    (c : List MessageObject) :
    cntAct (Action.concStart m) (c.map Action.concStart) = cntMsg m c := by
  induction c with
  | nil => rfl
  | cons x c ih => simp [cntAct, cntMsg, ih, Action.concStart.injEq]

theorem cntAct_concFinish_map_concFinish (m : MessageObject)
    (c : List MessageObject) :
    cntAct (Action.concFinish m) (c.map Action.concFinish) = cntMsg m c := by
  induction c with
  | nil => rfl
  | cons x c ih => simp [cntAct, cntMsg, ih, Action.concFinish.injEq]

theorem cntAct_of_map_ne (a : Action) (f : MessageObject → Action)
    (c : List MessageObject) (h : ∀ x, f x ≠ a) :
    cntAct a (c.map f) = 0 := by
  apply cntAct_eq_zero_of_not_mem
  simp only [List.mem_map, not_exists]
  intro x
  exact fun hx => h x hx.2

theorem cntAct_flushTr_cached (m : MessageObject) (c : List MessageObject) :
    cntAct (Action.cached m) (flushTr c) = 0 := by
  simp [flushTr, cntAct_append,
    cntAct_of_map_ne (Action.cached m) Action.concStart c (fun x => by simp),
    cntAct_of_map_ne (Action.cached m) Action.concFinish c (fun x => by simp)]

theorem cntAct_flushTr_concStart (m : MessageObject) (c : List MessageObject) :
    cntAct (Action.concStart m) (flushTr c) = cntMsg m c := by
  simp [flushTr, cntAct_append, cntAct_concStart_map_concStart,
    cntAct_of_map_ne (Action.concStart m) Action.concFinish c (fun x => by simp)]

theorem cntAct_flushTr_concFinish (m : MessageObject) (c : List MessageObject) :
    cntAct (Action.concFinish m) (flushTr c) = cntMsg m c := by
  simp [flushTr, cntAct_append, cntAct_concFinish_map_concFinish,
    cntAct_of_map_ne (Action.concFinish m) Action.concStart c (fun x => by simp)]

theorem cntMsg_append (m : MessageObject) (l1 l2 : List MessageObject) :
    cntMsg m (l1 ++ l2) = cntMsg m l1 + cntMsg m l2 := by
  induction l1 with
  | nil => simp [cntMsg]
  | cons x l1 ih => simp [cntMsg, ih]; omega

theorem exclStart_not_mem_flushTr (m : MessageObject) (c : List MessageObject) :
    Action.exclStart m ∉ flushTr c := by
  simp [flushTr]

/-- The concurrency bookkeeping carried by a trace chunk that takes the
concurrent cache from `c0` to `c1`:
every message cached (or initially present) is eventually pushed into the
pool or still cached at the end; pushes and completions balance; and at any
`exclStart` inside the chunk, the prefix has completed every push and
emptied the cache. -/
def ChunkOK (c0 c1 : List MessageObject) (tr : List Action) : Prop :=
  (∀ m, cntAct (Action.cached m) tr + cntMsg m c0 =
      cntAct (Action.concStart m) tr + cntMsg m c1) ∧
  (∀ m, cntAct (Action.concStart m) tr = cntAct (Action.concFinish m) tr) ∧
  (∀ p m q, tr = p ++ Action.exclStart m :: q →
      (∀ m', cntAct (Action.concStart m') p = cntAct (Action.concFinish m') p) ∧
      (∀ m', cntAct (Action.cached m') p + cntMsg m' c0 =
          cntAct (Action.concStart m') p) ∧
      (∃ q', q = Action.exclFinish m :: q'))

theorem append_split {α : Type} {t1 t2 p q : List α} {a : α}
    (h : t1 ++ t2 = p ++ a :: q) :
    (∃ q1, t1 = p ++ a :: q1 ∧ q = q1 ++ t2) ∨
    (∃ p2, p = t1 ++ p2 ∧ t2 = p2 ++ a :: q) := by
  induction t1 generalizing p with
  | nil =>
    right
    exact ⟨p, by simp, by simpa using h⟩
  | cons x t1 ih =>
    cases p with
    | nil =>
      simp only [List.nil_append, List.cons_append, List.cons.injEq] at h
      left
      exact ⟨t1, by simp [h.1], h.2.symm⟩
    | cons y p =>
      simp only [List.cons_append, List.cons.injEq] at h
      rcases ih h.2 with ⟨q1, h1, h2⟩ | ⟨p2, h1, h2⟩
      · left
        exact ⟨q1, by simp [h.1, h1], h2⟩
      · right
        exact ⟨p2, by simp [h.1, h1], h2⟩

theorem ChunkOK.comp {c0 c1 c2 : List MessageObject} {t1 t2 : List Action}
    (h1 : ChunkOK c0 c1 t1) (h2 : ChunkOK c1 c2 t2) :
    ChunkOK c0 c2 (t1 ++ t2) := by
  obtain ⟨acc1, bal1, ex1⟩ := h1
  obtain ⟨acc2, bal2, ex2⟩ := h2
  refine ⟨?_, ?_, ?_⟩
  · intro m
    have a1 := acc1 m
    have a2 := acc2 m
    simp only [cntAct_append]
    omega
  · intro m
    have b1 := bal1 m
    have b2 := bal2 m
    simp only [cntAct_append]
    omega
  · intro p m q hsplit
    rcases append_split hsplit with ⟨q1, ht1, hq⟩ | ⟨p2, hp, ht2⟩
    · obtain ⟨balp, csp, q', hq'⟩ := ex1 p m q1 ht1
      refine ⟨balp, csp, q' ++ t2, ?_⟩
      rw [hq, hq']
      simp
    · obtain ⟨balp2, csp2, hq'⟩ := ex2 p2 m q ht2
      subst hp
      refine ⟨?_, ?_, hq'⟩
      · intro m'
        have b1 := bal1 m'
        have b2 := balp2 m'
        simp only [cntAct_append]
        omega
      · intro m'
        have a1 := acc1 m'
        have a2 := csp2 m'
        simp only [cntAct_append]
        omega

theorem chunkOK_nil (c : List MessageObject) : ChunkOK c c [] := by
  refine ⟨fun m => rfl, fun m => rfl, ?_⟩
  intro p m q h
  exact absurd h (by simp)

theorem chunkOK_flushTr (c : List MessageObject) : ChunkOK c [] (flushTr c) := by
  refine ⟨?_, ?_, ?_⟩
  · intro m
    simp [cntAct_flushTr_cached, cntAct_flushTr_concStart, cntMsg]
  · intro m
    simp [cntAct_flushTr_concStart, cntAct_flushTr_concFinish]
  · intro p m q h
    have hmem : Action.exclStart m ∈ flushTr c := by
      rw [h]
      exact List.mem_append_right _ (List.mem_cons_self _ _)
    exact absurd hmem (exclStart_not_mem_flushTr m c)

theorem chunkOK_cached (c : List MessageObject) (m : MessageObject) :
    ChunkOK c (c ++ [m]) [Action.cached m] := by
  refine ⟨?_, ?_, ?_⟩
  · intro m'
    by_cases h : m = m' <;>
      simp [cntAct, cntMsg_append, cntMsg, h] <;> omega
  · intro m'
    simp [cntAct]
  · intro p m' q h
    cases p with
    | nil => simp at h
    | cons b p => simp at h

theorem chunkOK_neutral (c : List MessageObject) (a : Action)
    (h1 : ∀ m, a ≠ Action.cached m) (h2 : ∀ m, a ≠ Action.concStart m)
    (h3 : ∀ m, a ≠ Action.concFinish m) (h4 : ∀ m, a ≠ Action.exclStart m) :
    ChunkOK c c [a] := by
  refine ⟨?_, ?_, ?_⟩
  · intro m
    simp [cntAct, h1 m, h2 m]
  · intro m
    simp [cntAct, h2 m, h3 m]
  · intro p m q h
    cases p with
    | nil =>
      simp only [List.nil_append, List.cons.injEq] at h
      exact absurd h.1 (h4 m)
    | cons b p => simp at h

theorem chunkOK_panicked (c : List MessageObject) :
    ChunkOK c c [Action.panicked] :=
  chunkOK_neutral c Action.panicked (by simp) (by simp) (by simp) (by simp)

theorem chunkOK_stopCalled (c : List MessageObject) :
    ChunkOK c c [Action.stopCalled] :=
  chunkOK_neutral c Action.stopCalled (by simp) (by simp) (by simp) (by simp)

theorem chunkOK_onStart (c : List MessageObject) :
    ChunkOK c c [Action.onStart] :=
  chunkOK_neutral c Action.onStart (by simp) (by simp) (by simp) (by simp)

theorem chunkOK_onStop (c : List MessageObject) :
    ChunkOK c c [Action.onStop] :=
  chunkOK_neutral c Action.onStop (by simp) (by simp) (by simp) (by simp)

theorem chunkOK_exclPair (m : MessageObject) :
    ChunkOK [] [] [Action.exclStart m, Action.exclFinish m] := by
  refine ⟨?_, ?_, ?_⟩
  · intro m'
    simp [cntAct, cntMsg]
  · intro m'
    simp [cntAct]
  · intro p m' q h
    cases p with
    | nil =>
      simp only [List.nil_append, List.cons.injEq] at h
      obtain ⟨h1, h2⟩ := h
      obtain ⟨rfl⟩ := Action.exclStart.inj h1.symm
      refine ⟨fun m'' => rfl, fun m'' => by simp [cntAct, cntMsg], ?_⟩
      exact ⟨[], h2.symm⟩
    | cons b p =>
      cases p with
      | nil => simp at h
      | cons b2 p => simp at h

theorem chunkOK_exclReplayTr (o : Option MessageObject) :
    ChunkOK [] [] (exclReplayTr o) := by
  cases o with
  | none => exact chunkOK_nil []
  | some m => exact chunkOK_exclPair m

theorem try_handle_concurrent_eq (c : List MessageObject) :
    try_handle_concurrent c = (flushTr c, []) := by
  cases c with
  | nil => rfl
  | cons x c => rfl

theorem handle_exclusive_eq (m : MessageObject) (s : ContextWithActor) :
    handle_exclusive m s =
      (flushTr s.cache_ref ++ [Action.exclStart m, Action.exclFinish m],
       { s with cache_mut := none, cache_ref := [] }) := by
  simp [handle_exclusive, try_handle_concurrent_eq]

theorem chunkOK_handle_exclusive (m : MessageObject) (s : ContextWithActor) :
    ChunkOK s.cache_ref (handle_exclusive m s).2.cache_ref
      (handle_exclusive m s).1 := by
  rw [handle_exclusive_eq]
  exact (chunkOK_flushTr s.cache_ref).comp (chunkOK_exclPair m)

theorem chunkOK_handle_message (msg : ActorMessage) (s : ContextWithActor) :
    ChunkOK s.cache_ref (handle_message msg s).2.1.cache_ref
      (handle_message msg s).1 := by
  cases msg with
  | Mut m =>
    simpa [handle_message] using chunkOK_handle_exclusive m s
  | Ref m =>
    simpa [handle_message] using chunkOK_cached s.cache_ref m
  | DelayToken t =>
    rcases hcb : s.ctx.delay_queue.containsTok t with - | -
    · simpa [handle_message, hcb] using chunkOK_nil s.cache_ref
    · simp only [handle_message, hcb, if_true]
      cases hv : s.ctx.delay_queue.get t with
      | none => simpa using chunkOK_panicked s.cache_ref
      | some v =>
        cases v with
        | Ref m => simpa using chunkOK_cached s.cache_ref m
        | Mut m =>
          have := chunkOK_handle_exclusive m
            { s with ctx :=
                { s.ctx with delay_queue := s.ctx.delay_queue.removeKey t } }
          simpa using this
        | DelayToken t2 => simpa using chunkOK_panicked s.cache_ref
        | DelayTokenCancel t2 => simpa using chunkOK_panicked s.cache_ref
        | IntervalToken t2 => simpa using chunkOK_panicked s.cache_ref
        | IntervalTokenCancel t2 => simpa using chunkOK_panicked s.cache_ref
        | ActorState st nt => simpa using chunkOK_panicked s.cache_ref
  | IntervalToken t =>
    cases hv : s.ctx.interval_queue.get t with
    | none => simpa [handle_message, hv] using chunkOK_nil s.cache_ref
    | some im =>
      cases im with
      | Ref m =>
        have := chunkOK_cached s.cache_ref m
        simpa [handle_message, hv, IntervalMessage.clone_actor_message]
          using this
      | Mut m =>
        have := chunkOK_handle_exclusive m s
        simpa [handle_message, hv, IntervalMessage.clone_actor_message]
          using this
  | DelayTokenCancel t =>
    simpa [handle_message] using chunkOK_nil s.cache_ref
  | IntervalTokenCancel t =>
    simpa [handle_message] using chunkOK_nil s.cache_ref
  | ActorState st notify =>
    by_cases h : st = ActorState.Running
    · simpa [handle_message, h] using chunkOK_nil s.cache_ref
    · simpa [handle_message, h] using chunkOK_stopCalled s.cache_ref

theorem chunkOK_runLoop (events : List MailboxEvent) :
    ∀ s : ContextWithActor,
      ChunkOK s.cache_ref (runLoop events s).2.1.cache_ref
        (runLoop events s).1 := by
  induction events with
  | nil => intro s; simpa [runLoop] using chunkOK_nil s.cache_ref
  | cons e rest ih =>
    intro s
    cases e with
    | recvMsg m =>
      rcases hf : (handle_message m s).2.2 with - | -
      · have h1 := chunkOK_handle_message m s
        have h2 := ih (handle_message m s).2.1
        simpa [runLoop, hf] using h1.comp h2
      · simpa [runLoop, hf] using chunkOK_handle_message m s
    | emptyThen o =>
      cases o with
      | none =>
        simpa [runLoop, try_handle_concurrent_eq]
          using chunkOK_flushTr s.cache_ref
      | some m =>
        have hfl := chunkOK_flushTr s.cache_ref
        rcases hf : (handle_message m { s with cache_ref := [] }).2.2 with - | -
        · have h1 := chunkOK_handle_message m { s with cache_ref := [] }
          have h2 := ih (handle_message m { s with cache_ref := [] }).2.1
          have := hfl.comp (h1.comp h2)
          simpa [runLoop, try_handle_concurrent_eq, hf] using this
        · have h1 := chunkOK_handle_message m { s with cache_ref := [] }
          have := hfl.comp h1
          simpa [runLoop, try_handle_concurrent_eq, hf] using this
    | closed =>
      have := (chunkOK_stopCalled s.cache_ref).comp (chunkOK_flushTr s.cache_ref)
      simpa [runLoop, try_handle_concurrent_eq] using this

theorem chunkOK_run (events : List MailboxEvent) (s : ContextWithActor) :
    ChunkOK s.cache_ref (run events s).2.1.cache_ref (run events s).1 := by
  have hfl := chunkOK_flushTr s.cache_ref
  have hmr := chunkOK_exclReplayTr s.cache_mut
  have hlp := chunkOK_runLoop events
    { s with cache_ref := [], cache_mut := none }
  rcases he : (runLoop events { s with cache_ref := [], cache_mut := none }).2.2
      with - | -
  · have := hfl.comp (hmr.comp hlp)
    simpa [run, try_handle_concurrent_eq, he] using this
  · have hstop := chunkOK_onStop
      (runLoop events { s with cache_ref := [], cache_mut := none }).2.1.cache_ref
    have := hfl.comp (hmr.comp (hlp.comp hstop))
    simpa [run, try_handle_concurrent_eq, he] using this

theorem chunkOK_first_run (events : List MailboxEvent) (s : ContextWithActor) :
    ChunkOK s.cache_ref (first_run events s).2.1.cache_ref
      (first_run events s).1 := by
  have h1 := chunkOK_onStart s.cache_ref
  have h2 := chunkOK_run events
    { s with ctx := { s.ctx with state := ActorState.Running } }
  have := h1.comp h2
  simpa [first_run] using this

/-- C1: in every execution of the driver loop started by `first_run`, at
any point where an exclusive handler begins (`exclStart`, whether the
message arrived directly or was resolved from a delay/interval token),
every concurrent message cached strictly before that dispatch point has
been pushed into the in-flight pool (`cached` count equals `concStart`
count on the prefix) and driven to full completion (`concStart` count
equals `concFinish` count on the prefix, so the cache is empty and nothing
is in flight), and no other handler activity occurs until the exclusive
handler finishes (`exclFinish` immediately follows). -/
theorem c1_flush_before_exclusive (actor : Nat) (ctx : Context)
    (events : List MailboxEvent) (p q : List Action) (m : MessageObject)
    (h : (first_run events (ContextWithActor.new actor ctx)).1 =
        p ++ Action.exclStart m :: q) :
    (∀ m', cntAct (Action.cached m') p = cntAct (Action.concStart m') p) ∧
    (∀ m', cntAct (Action.concStart m') p = cntAct (Action.concFinish m') p) ∧
    (∃ q', q = Action.exclFinish m :: q') := by
  obtain ⟨-, -, ex⟩ := chunkOK_first_run events (ContextWithActor.new actor ctx)
  obtain ⟨bal, cs, hat⟩ := ex p m q h
  refine ⟨?_, bal, hat⟩
  intro m'
  have hcs := cs m'
  simpa [ContextWithActor.new, cntMsg] using hcs

/-- Witness for C1 at a concrete execution: one direct exclusive message. -/
theorem c1_flush_before_exclusive_witness :
    ((first_run [MailboxEvent.recvMsg (ActorMessage.Mut ⟨0, false⟩)]
        (ContextWithActor.new 0 Context.new)).1 =
      [Action.onStart] ++ Action.exclStart ⟨0, false⟩ ::
        [Action.exclFinish ⟨0, false⟩]) ∧
    ((∀ m', cntAct (Action.cached m') [Action.onStart] =
        cntAct (Action.concStart m') [Action.onStart]) ∧
     (∀ m', cntAct (Action.concStart m') [Action.onStart] =
        cntAct (Action.concFinish m') [Action.onStart]) ∧
     (∃ q', [Action.exclFinish (⟨0, false⟩ : MessageObject)] =
        Action.exclFinish (⟨0, false⟩ : MessageObject) :: q')) :=
  ⟨by rfl,
   c1_flush_before_exclusive 0 Context.new
     [MailboxEvent.recvMsg (ActorMessage.Mut ⟨0, false⟩)]
     [Action.onStart] [Action.exclFinish ⟨0, false⟩] ⟨0, false⟩ (by rfl)⟩

/-- A driver whose delay queue holds one concurrent entry at token 0. -/
def sampleDelayRefCWA : ContextWithActor :=
  ContextWithActor.new 0
    { Context.new with
        delay_queue := ⟨[(0, ActorMessage.Ref ⟨1, false⟩)], 1⟩ }

/-- A driver whose delay queue holds one exclusive entry at token 0. -/
def sampleDelayMutCWA : ContextWithActor :=
  ContextWithActor.new 0
    { Context.new with
        delay_queue := ⟨[(0, ActorMessage.Mut ⟨1, false⟩)], 1⟩ }

/-- A driver whose interval queue holds one concurrent template at
token 0. -/
def sampleIntervalRefCWA : ContextWithActor :=
  ContextWithActor.new 0
    { Context.new with
        interval_queue := ⟨[(0, IntervalMessage.Ref ⟨2, false⟩)], 1⟩ }

/-- C2: resolving a Delay-token: an absent token is ignored with no state
change; a present token is consumed (removed from `delay_queue`) and its
payload dispatched per kind — a `Ref` payload is appended to the concurrent
cache, a `Mut` payload goes through the exclusive path
(`handle_exclusive`). -/
theorem c2_delay_token_dispatch (s : ContextWithActor) (t : Nat) :
    (s.ctx.delay_queue.get t = none →
        handle_message (ActorMessage.DelayToken t) s = ([], s, false)) ∧
    (∀ m, s.ctx.delay_queue.get t = some (ActorMessage.Ref m) →
        handle_message (ActorMessage.DelayToken t) s =
          ([Action.cached m],
           { s with
               ctx := { s.ctx with
                   delay_queue := s.ctx.delay_queue.removeKey t },
               cache_ref := s.cache_ref ++ [m] }, false)) ∧
    (∀ m, s.ctx.delay_queue.get t = some (ActorMessage.Mut m) →
        handle_message (ActorMessage.DelayToken t) s =
          ((handle_exclusive m
              { s with ctx := { s.ctx with
                  delay_queue := s.ctx.delay_queue.removeKey t } }).1,
           (handle_exclusive m
              { s with ctx := { s.ctx with
                  delay_queue := s.ctx.delay_queue.removeKey t } }).2,
           false)) := by
  refine ⟨?_, ?_, ?_⟩
  · intro h
    simp [handle_message, Slab.containsTok, h]
  · intro m h
    simp [handle_message, Slab.containsTok, h]
  · intro m h
    simp [handle_message, Slab.containsTok, h]

/-- Witness for C2: the three cases at concrete registries. -/
theorem c2_delay_token_dispatch_witness :
    (handle_message (ActorMessage.DelayToken 0)
        (ContextWithActor.new 0 Context.new) =
      ([], ContextWithActor.new 0 Context.new, false)) ∧
    (handle_message (ActorMessage.DelayToken 0) sampleDelayRefCWA =
      ([Action.cached ⟨1, false⟩],
       { sampleDelayRefCWA with
           ctx := { sampleDelayRefCWA.ctx with
               delay_queue := sampleDelayRefCWA.ctx.delay_queue.removeKey 0 },
           cache_ref := sampleDelayRefCWA.cache_ref ++ [⟨1, false⟩] },
       false)) ∧
    (handle_message (ActorMessage.DelayToken 0) sampleDelayMutCWA =
      ((handle_exclusive ⟨1, false⟩
          { sampleDelayMutCWA with
              ctx := { sampleDelayMutCWA.ctx with
                  delay_queue :=
                    sampleDelayMutCWA.ctx.delay_queue.removeKey 0 } }).1,
       (handle_exclusive ⟨1, false⟩
          { sampleDelayMutCWA with
              ctx := { sampleDelayMutCWA.ctx with
                  delay_queue :=
                    sampleDelayMutCWA.ctx.delay_queue.removeKey 0 } }).2,
       false)) :=
  ⟨(c2_delay_token_dispatch (ContextWithActor.new 0 Context.new) 0).1 (by rfl),
   (c2_delay_token_dispatch sampleDelayRefCWA 0).2.1 ⟨1, false⟩ (by rfl),
   (c2_delay_token_dispatch sampleDelayMutCWA 0).2.2 ⟨1, false⟩ (by rfl)⟩

/-- C3: resolving an Interval-token: a present token clones the stored
template and dispatches the clone per kind, leaving the whole
`interval_queue` (and in particular the entry) untouched, so the token can
fire again; an absent token is ignored with no state change. -/
theorem c3_interval_token_dispatch (s : ContextWithActor) (t : Nat) :
    (s.ctx.interval_queue.get t = none →
        handle_message (ActorMessage.IntervalToken t) s = ([], s, false)) ∧
    (∀ m, s.ctx.interval_queue.get t = some (IntervalMessage.Ref m) →
        handle_message (ActorMessage.IntervalToken t) s =
          ([Action.cached m],
           { s with cache_ref := s.cache_ref ++ [m] }, false)) ∧
    (∀ m, s.ctx.interval_queue.get t = some (IntervalMessage.Mut m) →
        handle_message (ActorMessage.IntervalToken t) s =
          ((handle_exclusive m s).1, (handle_exclusive m s).2, false)) ∧
    ((handle_message (ActorMessage.IntervalToken t) s).2.1.ctx.interval_queue
        = s.ctx.interval_queue) := by
  refine ⟨?_, ?_, ?_, ?_⟩
  · intro h
    simp [handle_message, h]
  · intro m h
    simp [handle_message, h, IntervalMessage.clone_actor_message]
  · intro m h
    simp [handle_message, h, IntervalMessage.clone_actor_message]
  · cases hv : s.ctx.interval_queue.get t with
    | none => simp [handle_message, hv]
    | some im =>
      cases im with
      | Ref m => simp [handle_message, hv, IntervalMessage.clone_actor_message]
      | Mut m =>
        simp [handle_message, hv, IntervalMessage.clone_actor_message,
          handle_exclusive_eq]

/-- Witness for C3 at concrete registries. -/
theorem c3_interval_token_dispatch_witness :
    (handle_message (ActorMessage.IntervalToken 0)
        (ContextWithActor.new 0 Context.new) =
      ([], ContextWithActor.new 0 Context.new, false)) ∧
    (handle_message (ActorMessage.IntervalToken 0) sampleIntervalRefCWA =
      ([Action.cached ⟨2, false⟩],
       { sampleIntervalRefCWA with
           cache_ref := sampleIntervalRefCWA.cache_ref ++ [⟨2, false⟩] },
       false)) ∧
    (handle_message (ActorMessage.IntervalToken 0)
        sampleIntervalRefCWA).2.1.ctx.interval_queue =
      sampleIntervalRefCWA.ctx.interval_queue :=
  ⟨(c3_interval_token_dispatch (ContextWithActor.new 0 Context.new) 0).1
     (by rfl),
   (c3_interval_token_dispatch sampleIntervalRefCWA 0).2.1 ⟨2, false⟩ (by rfl),
   (c3_interval_token_dispatch sampleIntervalRefCWA 0).2.2.2⟩

theorem handle_delay_cancel_idem (t : Nat) (c : Context) :
    handle_delay_cancel t (handle_delay_cancel t c) = handle_delay_cancel t c := by
  unfold handle_delay_cancel
  rcases h : c.delay_queue.containsTok t with - | -
  · simp [h]
  · have h2 : (c.delay_queue.removeKey t).containsTok t = false := by
      simp [Slab.containsTok, Slab.get_removeKey_self]
    simp [h, h2]

theorem handle_interval_cancel_idem (t : Nat) (c : Context) :
    handle_interval_cancel t (handle_interval_cancel t c) =
      handle_interval_cancel t c := by
  unfold handle_interval_cancel
  rcases h : c.interval_queue.containsTok t with - | -
  · simp [h]
  · have h2 : (c.interval_queue.removeKey t).containsTok t = false := by
      simp [Slab.containsTok, Slab.get_removeKey_self]
    simp [h, h2]

theorem handle_delay_cancel_get_self (t : Nat) (c : Context) :
    (handle_delay_cancel t c).delay_queue.get t = none := by
  unfold handle_delay_cancel
  rcases h : c.delay_queue.containsTok t with - | -
  · have := (Slab.containsTok_eq_false_iff c.delay_queue t).mp h
    simpa [h] using this
  · simp [h, Slab.get_removeKey_self]

theorem handle_interval_cancel_get_self (t : Nat) (c : Context) :
    (handle_interval_cancel t c).interval_queue.get t = none := by
  unfold handle_interval_cancel
  rcases h : c.interval_queue.containsTok t with - | -
  · have := (Slab.containsTok_eq_false_iff c.interval_queue t).mp h
    simpa [h] using this
  · simp [h, Slab.get_removeKey_self]

/-- C4: handling a Delay-cancel or Interval-cancel token removes the
corresponding entry from its own queue if present and is a silent no-op if
it is absent: it emits no handler activity and no panic, never forces the
loop to stop, leaves the other queue, all other entries of the same queue,
and the caches unchanged, and is idempotent. -/
theorem c4_cancel_tokens (s : ContextWithActor) (t t' : Nat) :
    ((handle_message (ActorMessage.DelayTokenCancel t) s).1 = [] ∧
     (handle_message (ActorMessage.DelayTokenCancel t) s).2.2 = false) ∧
    ((handle_message (ActorMessage.DelayTokenCancel t) s).2.1.ctx.delay_queue.get t
        = none) ∧
    (t' ≠ t →
      (handle_message (ActorMessage.DelayTokenCancel t) s).2.1.ctx.delay_queue.get t'
        = s.ctx.delay_queue.get t') ∧
    ((handle_message (ActorMessage.DelayTokenCancel t) s).2.1.ctx.interval_queue
        = s.ctx.interval_queue) ∧
    (s.ctx.delay_queue.containsTok t = false →
      handle_message (ActorMessage.DelayTokenCancel t) s = ([], s, false)) ∧
    ((handle_message (ActorMessage.DelayTokenCancel t)
        (handle_message (ActorMessage.DelayTokenCancel t) s).2.1).2.1 =
      (handle_message (ActorMessage.DelayTokenCancel t) s).2.1) ∧
    ((handle_message (ActorMessage.DelayTokenCancel t) s).2.1.cache_ref
        = s.cache_ref) ∧
    ((handle_message (ActorMessage.IntervalTokenCancel t) s).1 = [] ∧
     (handle_message (ActorMessage.IntervalTokenCancel t) s).2.2 = false) ∧
    ((handle_message (ActorMessage.IntervalTokenCancel t)
        s).2.1.ctx.interval_queue.get t = none) ∧
    (t' ≠ t →
      (handle_message (ActorMessage.IntervalTokenCancel t)
          s).2.1.ctx.interval_queue.get t' = s.ctx.interval_queue.get t') ∧
    ((handle_message (ActorMessage.IntervalTokenCancel t) s).2.1.ctx.delay_queue
        = s.ctx.delay_queue) ∧
    (s.ctx.interval_queue.containsTok t = false →
      handle_message (ActorMessage.IntervalTokenCancel t) s = ([], s, false)) ∧
    ((handle_message (ActorMessage.IntervalTokenCancel t)
        (handle_message (ActorMessage.IntervalTokenCancel t) s).2.1).2.1 =
      (handle_message (ActorMessage.IntervalTokenCancel t) s).2.1) ∧
    ((handle_message (ActorMessage.IntervalTokenCancel t) s).2.1.cache_ref
        = s.cache_ref) := by
  refine ⟨⟨rfl, rfl⟩, ?_, ?_, ?_, ?_, ?_, ?_, ⟨rfl, rfl⟩, ?_, ?_, ?_, ?_, ?_, ?_⟩
  · simpa [handle_message] using handle_delay_cancel_get_self t s.ctx
  · intro hne
    simp only [handle_message]
    unfold handle_delay_cancel
    rcases h : s.ctx.delay_queue.containsTok t with - | -
    · simp [h]
    · simp [h, Slab.get_removeKey_other _ _ _ hne]
  · simp only [handle_message]
    unfold handle_delay_cancel
    rcases h : s.ctx.delay_queue.containsTok t with - | -
    · simp [h]
    · simp [h]
  · intro h
    simp [handle_message, handle_delay_cancel, h]
  · simpa [handle_message] using handle_delay_cancel_idem t s.ctx
  · simp [handle_message]
  · simpa [handle_message] using handle_interval_cancel_get_self t s.ctx
  · intro hne
    simp only [handle_message]
    unfold handle_interval_cancel
    rcases h : s.ctx.interval_queue.containsTok t with - | -
    · simp [h]
    · simp [h, Slab.get_removeKey_other _ _ _ hne]
  · simp only [handle_message]
    unfold handle_interval_cancel
    rcases h : s.ctx.interval_queue.containsTok t with - | -
    · simp [h]
    · simp [h]
  · intro h
    simp [handle_message, handle_interval_cancel, h]
  · simpa [handle_message] using handle_interval_cancel_idem t s.ctx
  · simp [handle_message]

/-- Witness for C4 at a concrete driver whose delay queue holds token 0,
with `t = 0` and the distinct other token `t' = 1`. -/
theorem c4_cancel_tokens_witness :
    ((handle_message (ActorMessage.DelayTokenCancel 0)
        sampleDelayRefCWA).2.1.ctx.delay_queue.get 0 = none) ∧
    ((handle_message (ActorMessage.DelayTokenCancel 0)
        sampleDelayRefCWA).2.1.ctx.delay_queue.get 1 =
      sampleDelayRefCWA.ctx.delay_queue.get 1) ∧
    (handle_message (ActorMessage.IntervalTokenCancel 0) sampleDelayRefCWA =
      ([], sampleDelayRefCWA, false)) :=
  ⟨(c4_cancel_tokens sampleDelayRefCWA 0 1).2.1,
   (c4_cancel_tokens sampleDelayRefCWA 0 1).2.2.1 (by decide),
   (c4_cancel_tokens sampleDelayRefCWA 0 1).2.2.2.2.2.2.2.2.2.2.2.1 (by decide)⟩

theorem handle_delay_cancel_state (t : Nat) (c : Context) :
    (handle_delay_cancel t c).state = c.state := by
  unfold handle_delay_cancel
  rcases h : c.delay_queue.containsTok t with - | - <;> simp [h]

theorem handle_interval_cancel_state (t : Nat) (c : Context) :
    (handle_interval_cancel t c).state = c.state := by
  unfold handle_interval_cancel
  rcases h : c.interval_queue.containsTok t with - | - <;> simp [h]

/-- Every operation on a live context either leaves the lifecycle state
alone or moves it to `StopGraceful`; in particular no operation ever sets
it to `Running` (only `first_run` does that, once, at startup). -/
theorem applyLife_state (s : ContextWithActor) (op : LifeOp) :
    (applyLife s op).ctx.state = s.ctx.state ∨
    (applyLife s op).ctx.state = ActorState.StopGraceful := by
  cases op with
  | stopOp => right; simp [applyLife, Context.stop]
  | handleMsg m =>
    cases m with
    | Mut m => left; simp [applyLife, handle_message, handle_exclusive_eq]
    | Ref m => left; simp [applyLife, handle_message]
    | DelayToken t =>
      rcases hcb : s.ctx.delay_queue.containsTok t with - | -
      · left; simp [applyLife, handle_message, hcb]
      · left
        simp only [applyLife, handle_message, hcb, if_true]
        cases hv : s.ctx.delay_queue.get t with
        | none => rfl
        | some v =>
          cases v <;> simp [handle_exclusive_eq]
    | IntervalToken t =>
      left
      cases hv : s.ctx.interval_queue.get t with
      | none => simp [applyLife, handle_message, hv]
      | some im =>
        cases im with
        | Ref m =>
          simp [applyLife, handle_message, hv,
            IntervalMessage.clone_actor_message]
        | Mut m =>
          simp [applyLife, handle_message, hv,
            IntervalMessage.clone_actor_message, handle_exclusive_eq]
    | DelayTokenCancel t =>
      left; simpa [applyLife, handle_message] using handle_delay_cancel_state t s.ctx
    | IntervalTokenCancel t =>
      left; simpa [applyLife, handle_message] using handle_interval_cancel_state t s.ctx
    | ActorState st nt =>
      by_cases h : st = ActorState.Running
      · left; simp [applyLife, handle_message, h]
      · right; simp [applyLife, handle_message, h, Context.stop]

/-- C5: once the lifecycle state has left `Running` for a stopping state,
no reachable sequence of operations (`Context::stop` and
`Context::handle_message` — the only operations after the one-time
`first_run` promotion) ever sets it back to `Running`. -/
theorem c5_state_never_reverts (s : ContextWithActor) (ops : List LifeOp)
    (h : s.ctx.state ≠ ActorState.Running) :
    (ops.foldl applyLife s).ctx.state ≠ ActorState.Running := by
  induction ops generalizing s with
  | nil => simpa using h
  | cons op ops ih =>
    simp only [List.foldl_cons]
    apply ih
    rcases applyLife_state s op with h1 | h1
    · rw [h1]; exact h
    · rw [h1]; simp

/-- A driver whose actor has already left `Running` for `StopGraceful`. -/
def stoppedCWA : ContextWithActor :=
  ContextWithActor.new 0 { Context.new with state := ActorState.StopGraceful }

/-- Witness for C5: from a stopping state, even a lifecycle request naming
`Running` does not revert the state. -/
theorem c5_state_never_reverts_witness :
    stoppedCWA.ctx.state ≠ ActorState.Running ∧
    ([LifeOp.handleMsg (ActorMessage.ActorState ActorState.Running none)].foldl
        applyLife stoppedCWA).ctx.state ≠ ActorState.Running :=
  ⟨by decide,
   c5_state_never_reverts stoppedCWA
     [LifeOp.handleMsg (ActorMessage.ActorState ActorState.Running none)]
     (by decide)⟩

/-- C7: a Lifecycle-transition request always records the carried
acknowledgement channel (replacing any previous one); if the requested
state is not `Running` it calls `Context::stop` (mailbox closed, state
`StopGraceful`), otherwise it leaves the context alone; and the returned
force-stop flag is `true` exactly when the requested state is `Stop`.  The
message caches are untouched either way. -/
theorem c7_lifecycle_request (s : ContextWithActor) (st : ActorState)
    (nt : Option Nat) :
    ((handle_message (ActorMessage.ActorState st nt) s).2.1.drop_notify = nt) ∧
    (st ≠ ActorState.Running →
      (handle_message (ActorMessage.ActorState st nt) s).2.1.ctx = s.ctx.stop ∧
      (handle_message (ActorMessage.ActorState st nt) s).1 =
        [Action.stopCalled]) ∧
    (st = ActorState.Running →
      (handle_message (ActorMessage.ActorState st nt) s).2.1 =
        { s with drop_notify := nt } ∧
      (handle_message (ActorMessage.ActorState st nt) s).1 = []) ∧
    ((handle_message (ActorMessage.ActorState st nt) s).2.2 = true ↔
      st = ActorState.Stop) ∧
    ((handle_message (ActorMessage.ActorState st nt) s).2.1.cache_ref =
      s.cache_ref) ∧
    ((handle_message (ActorMessage.ActorState st nt) s).2.1.cache_mut =
      s.cache_mut) := by
  by_cases h : st = ActorState.Running
  · subst h
    refine ⟨by simp [handle_message], fun hc => absurd rfl hc, ?_, ?_, ?_, ?_⟩
    · intro h2
      exact ⟨by simp [handle_message], by simp [handle_message]⟩
    · simp [handle_message]
    · simp [handle_message]
    · simp [handle_message]
  · refine ⟨by simp [handle_message, h], ?_, fun hc => absurd hc h, ?_, ?_, ?_⟩
    · intro h2
      exact ⟨by simp [handle_message, h], by simp [handle_message, h]⟩
    · simp [handle_message, h, decide_eq_true_iff]
    · simp [handle_message, h]
    · simp [handle_message, h]

/-- Witness for C7: a graceful-stop request and a running request at a
concrete driver. -/
theorem c7_lifecycle_request_witness :
    ((handle_message
        (ActorMessage.ActorState ActorState.StopGraceful (some 7))
        (ContextWithActor.new 0 Context.new)).2.1.ctx =
      (ContextWithActor.new 0 Context.new).ctx.stop ∧
     (handle_message
        (ActorMessage.ActorState ActorState.StopGraceful (some 7))
        (ContextWithActor.new 0 Context.new)).1 = [Action.stopCalled]) ∧
    ((handle_message (ActorMessage.ActorState ActorState.Running (some 8))
        (ContextWithActor.new 0 Context.new)).2.1 =
      { ContextWithActor.new 0 Context.new with drop_notify := some 8 } ∧
     (handle_message (ActorMessage.ActorState ActorState.Running (some 8))
        (ContextWithActor.new 0 Context.new)).1 = []) :=
  ⟨(c7_lifecycle_request (ContextWithActor.new 0 Context.new)
      ActorState.StopGraceful (some 7)).2.1 (by decide),
   (c7_lifecycle_request (ContextWithActor.new 0 Context.new)
      ActorState.Running (some 8)).2.2.1 (by decide)⟩

theorem run_trace_eq (events : List MailboxEvent) (s : ContextWithActor) :
    (run events s).1 =
      flushTr s.cache_ref ++ exclReplayTr s.cache_mut ++
        (runLoop events { s with cache_ref := [], cache_mut := none }).1 ++
        (if (runLoop events { s with cache_ref := [], cache_mut := none }).2.2
            = true
         then [Action.onStop] else []) := by
  rcases he : (runLoop events { s with cache_ref := [], cache_mut := none }).2.2
      with - | -
  · simp [run, try_handle_concurrent_eq, he]
  · simp [run, try_handle_concurrent_eq, he]

theorem onStop_not_mem_flushTr (c : List MessageObject) :
    Action.onStop ∉ flushTr c := by
  simp [flushTr]

theorem onStop_not_mem_handle_exclusive (m : MessageObject)
    (s : ContextWithActor) :
    Action.onStop ∉ (handle_exclusive m s).1 := by
  rw [handle_exclusive_eq]
  intro hmem
  rcases List.mem_append.mp hmem with h | h
  · exact onStop_not_mem_flushTr _ h
  · simp at h

theorem onStop_not_mem_handle_message (m : ActorMessage)
    (s : ContextWithActor) :
    Action.onStop ∉ (handle_message m s).1 := by
  cases m with
  | Mut m => simpa [handle_message] using onStop_not_mem_handle_exclusive m s
  | Ref m => simp [handle_message]
  | DelayToken t =>
    rcases hcb : s.ctx.delay_queue.containsTok t with - | -
    · simp [handle_message, hcb]
    · simp only [handle_message, hcb, if_true]
      cases hv : s.ctx.delay_queue.get t with
      | none => simp
      | some v =>
        cases v with
        | Ref m => simp
        | Mut m =>
          have := onStop_not_mem_handle_exclusive m
            { s with ctx :=
                { s.ctx with delay_queue := s.ctx.delay_queue.removeKey t } }
          simpa using this
        | DelayToken t2 => simp
        | DelayTokenCancel t2 => simp
        | IntervalToken t2 => simp
        | IntervalTokenCancel t2 => simp
        | ActorState st nt => simp
  | IntervalToken t =>
    cases hv : s.ctx.interval_queue.get t with
    | none => simp [handle_message, hv]
    | some im =>
      cases im with
      | Ref m =>
        simp [handle_message, hv, IntervalMessage.clone_actor_message]
      | Mut m =>
        have := onStop_not_mem_handle_exclusive m s
        simpa [handle_message, hv, IntervalMessage.clone_actor_message]
          using this
  | DelayTokenCancel t => simp [handle_message]
  | IntervalTokenCancel t => simp [handle_message]
  | ActorState st nt =>
    by_cases h : st = ActorState.Running <;> simp [handle_message, h]

theorem onStop_not_mem_runLoop (events : List MailboxEvent) :
    ∀ s : ContextWithActor, Action.onStop ∉ (runLoop events s).1 := by
  induction events with
  | nil => intro s; simp [runLoop]
  | cons e rest ih =>
    intro s
    cases e with
    | recvMsg m =>
      rcases hf : (handle_message m s).2.2 with - | -
      · simp only [runLoop, hf]
        intro hmem
        rcases List.mem_append.mp (by simpa using hmem) with h | h
        · exact onStop_not_mem_handle_message m s h
        · exact ih _ h
      · simpa [runLoop, hf] using onStop_not_mem_handle_message m s
    | emptyThen o =>
      cases o with
      | none =>
        simpa [runLoop, try_handle_concurrent_eq]
          using onStop_not_mem_flushTr s.cache_ref
      | some m =>
        rcases hf : (handle_message m { s with cache_ref := [] }).2.2 with - | -
        · simp only [runLoop, try_handle_concurrent_eq, hf]
          intro hmem
          rcases (by simpa using hmem :
              Action.onStop ∈ flushTr s.cache_ref ∨
              Action.onStop ∈
                (handle_message m { s with cache_ref := [] }).1 ∨
              Action.onStop ∈
                (runLoop rest
                  (handle_message m { s with cache_ref := [] }).2.1).1)
            with h | h | h
          · exact onStop_not_mem_flushTr _ h
          · exact onStop_not_mem_handle_message m _ h
          · exact ih _ h
        · simp only [runLoop, try_handle_concurrent_eq, hf]
          intro hmem
          rcases (by simpa using hmem :
              Action.onStop ∈ flushTr s.cache_ref ∨
              Action.onStop ∈
                (handle_message m { s with cache_ref := [] }).1)
            with h | h
          · exact onStop_not_mem_flushTr _ h
          · exact onStop_not_mem_handle_message m _ h
    | closed =>
      simp only [runLoop, try_handle_concurrent_eq]
      intro hmem
      exact onStop_not_mem_flushTr s.cache_ref (by simpa using hmem)

theorem onStop_not_mem_exclReplayTr (o : Option MessageObject) :
    Action.onStop ∉ exclReplayTr o := by
  cases o <;> simp [exclReplayTr]

theorem run_exited_eq (events : List MailboxEvent) (s : ContextWithActor) :
    (run events s).2.2 =
      (runLoop events { s with cache_ref := [], cache_mut := none }).2.2 := by
  rcases he : (runLoop events { s with cache_ref := [], cache_mut := none }).2.2
      with - | -
  · simp [run, try_handle_concurrent_eq, he]
  · simp [run, try_handle_concurrent_eq, he]

/-- C6 (amended): the receive strategy of the loop.  A non-blocking receive
that yields a message dispatches it and (absent a forced stop) continues;
an empty mailbox first flushes the concurrent cache, then blocks; channel
closure observed by the non-blocking receive calls `stop()`, performs one
final flush and exits; channel closure observed by the blocking receive
exits the loop directly — `stop()` is NOT called on that path (the cache is
already empty from the pre-block flush, so no flush is missed).  In either
case the loop body never runs the stop hook (it runs exactly once, after
the loop exits), and a pending acknowledgement channel is signaled exactly
once at teardown. -/
theorem c6_receive_strategy_amended :
    (∀ (s : ContextWithActor) (rest : List MailboxEvent) (m : ActorMessage),
      (handle_message m s).2.2 = false →
      runLoop (MailboxEvent.recvMsg m :: rest) s =
        ((handle_message m s).1 ++ (runLoop rest (handle_message m s).2.1).1,
         (runLoop rest (handle_message m s).2.1).2)) ∧
    (∀ (s : ContextWithActor) (rest : List MailboxEvent) (m : ActorMessage),
      (handle_message m { s with cache_ref := [] }).2.2 = false →
      runLoop (MailboxEvent.emptyThen (some m) :: rest) s =
        (flushTr s.cache_ref ++
           (handle_message m { s with cache_ref := [] }).1 ++
           (runLoop rest
             (handle_message m { s with cache_ref := [] }).2.1).1,
         (runLoop rest (handle_message m { s with cache_ref := [] }).2.1).2)) ∧
    (∀ (s : ContextWithActor) (rest : List MailboxEvent),
      runLoop (MailboxEvent.closed :: rest) s =
        (Action.stopCalled :: flushTr s.cache_ref,
         { s with ctx := s.ctx.stop, cache_ref := [] }, true)) ∧
    (∀ (s : ContextWithActor) (rest : List MailboxEvent),
      runLoop (MailboxEvent.emptyThen none :: rest) s =
        (flushTr s.cache_ref, { s with cache_ref := [] }, true)) ∧
    (∀ (events : List MailboxEvent) (s : ContextWithActor),
      Action.onStop ∉ (runLoop events s).1) ∧
    (∀ (events : List MailboxEvent) (s : ContextWithActor),
      (run events s).2.2 = true →
      cntAct Action.onStop (run events s).1 = 1) ∧
    (∀ (s : ContextWithActor) (ch : Nat), s.drop_notify = some ch →
      dropCWA false s = ([Action.notifySent ch], none)) := by
  refine ⟨?_, ?_, ?_, ?_, onStop_not_mem_runLoop, ?_, ?_⟩
  · intro s rest m hf
    simp [runLoop, hf]
  · intro s rest m hf
    simp [runLoop, try_handle_concurrent_eq, hf]
  · intro s rest
    simp [runLoop, try_handle_concurrent_eq]
  · intro s rest
    simp [runLoop, try_handle_concurrent_eq]
  · intro events s hex
    have hex2 : (runLoop events
        { s with cache_ref := [], cache_mut := none }).2.2 = true := by
      rw [← run_exited_eq]
      exact hex
    rw [run_trace_eq, hex2]
    simp only [cntAct_append, if_true]
    rw [cntAct_eq_zero_of_not_mem (onStop_not_mem_flushTr s.cache_ref),
      cntAct_eq_zero_of_not_mem (onStop_not_mem_exclReplayTr s.cache_mut),
      cntAct_eq_zero_of_not_mem (onStop_not_mem_runLoop events
        { s with cache_ref := [], cache_mut := none })]
    simp [cntAct]
  · intro s ch h
    simp [dropCWA, h]

/-- A running driver with empty caches, as after `first_run` on a fresh
context. -/
def runningCWA : ContextWithActor :=
  ContextWithActor.new 0 { Context.new with state := ActorState.Running }

/-- Counterexample for C6 as stated: when channel closure is observed by
the BLOCKING receive (`recv().await` returning `None`), the loop exits
without ever calling `stop()` — no `stopCalled` action is emitted and the
lifecycle state is still `Running` after the loop — contradicting "on
channel-closed it calls stop()". -/
theorem c6_counterexample_no_stop_on_blocking_closure :
    (run [MailboxEvent.emptyThen none] runningCWA).2.2 = true ∧
    Action.stopCalled ∉ (run [MailboxEvent.emptyThen none] runningCWA).1 ∧
    (run [MailboxEvent.emptyThen none] runningCWA).2.1.ctx.state =
      ActorState.Running := by
  refine ⟨by decide, by decide, by decide⟩

/-- Witness for C6 (amended): a concrete run that observes closure by the
non-blocking receive, with a pending acknowledgement. -/
theorem c6_receive_strategy_amended_witness :
    (runLoop [MailboxEvent.closed] runningCWA =
      (Action.stopCalled :: flushTr runningCWA.cache_ref,
       { runningCWA with ctx := runningCWA.ctx.stop, cache_ref := [] },
       true)) ∧
    (dropCWA false { runningCWA with drop_notify := some 3 } =
      ([Action.notifySent 3], none)) ∧
    ((runLoop [MailboxEvent.recvMsg (ActorMessage.Ref ⟨0, false⟩)] runningCWA) =
      ((handle_message (ActorMessage.Ref ⟨0, false⟩) runningCWA).1 ++
         (runLoop []
           (handle_message (ActorMessage.Ref ⟨0, false⟩) runningCWA).2.1).1,
       (runLoop []
         (handle_message (ActorMessage.Ref ⟨0, false⟩) runningCWA).2.1).2)) :=
  ⟨(c6_receive_strategy_amended).2.2.1 runningCWA [],
   (c6_receive_strategy_amended).2.2.2.2.2.2
     { runningCWA with drop_notify := some 3 } 3 (by rfl),
   (c6_receive_strategy_amended).1 runningCWA []
     (ActorMessage.Ref ⟨0, false⟩) (by rfl)⟩

/-- C8: panic recovery.  If the driver unwinds while the actor state is
`Running`, its `Drop` prunes from the concurrent cache exactly the entries
whose `finished()` predicate holds, and respawns a task owning the same
actor, context, parked exclusive message and acknowledgement channel; that
task's `run` first re-runs the surviving concurrent entries and any in-hand
exclusive message, then re-enters the receive loop.  If the state is not
`Running`, no recovery is attempted and the pending acknowledgement channel
is still signaled on teardown. -/
theorem c8_panic_recovery (s : ContextWithActor) (events : List MailboxEvent) :
    (s.ctx.state = ActorState.Running →
      dropCWA true s =
        ([Action.respawn],
         some { s with
             cache_ref := s.cache_ref.filter (fun m => !m.finished) }) ∧
      (∀ m, m ∈ s.cache_ref.filter (fun m => !m.finished) ↔
          (m ∈ s.cache_ref ∧ m.finished = false)) ∧
      (∀ s', dropCWA true s = ([Action.respawn], some s') →
        s'.actor = s.actor ∧ s'.ctx = s.ctx ∧ s'.cache_mut = s.cache_mut ∧
        s'.drop_notify = s.drop_notify ∧
        (run events s').1 =
          flushTr (s.cache_ref.filter (fun m => !m.finished)) ++
            exclReplayTr s.cache_mut ++
            (runLoop events { s' with cache_ref := [], cache_mut := none }).1 ++
            (if (runLoop events
                  { s' with cache_ref := [], cache_mut := none }).2.2 = true
             then [Action.onStop] else []))) ∧
    (s.ctx.state ≠ ActorState.Running →
      dropCWA true s =
        ((match s.drop_notify with
          | some ch => [Action.notifySent ch]
          | none => []), none)) := by
  constructor
  · intro h
    have h1 : dropCWA true s =
        ([Action.respawn],
         some { s with
             cache_ref := s.cache_ref.filter (fun m => !m.finished) }) := by
      simp [dropCWA, h]
    refine ⟨h1, ?_, ?_⟩
    · intro m
      simp [List.mem_filter]
    · intro s' heq
      rw [h1] at heq
      obtain ⟨-, rfl⟩ : [Action.respawn] = [Action.respawn] ∧
          ({ s with cache_ref := s.cache_ref.filter (fun m => !m.finished) }
            : ContextWithActor) = s' := by
        simpa [Prod.ext_iff] using heq
      refine ⟨rfl, rfl, rfl, rfl, ?_⟩
      rw [run_trace_eq]
  · intro h
    cases hnt : s.drop_notify with
    | none => simp [dropCWA, h, hnt]
    | some ch => simp [dropCWA, h, hnt]

/-- A driver caught mid-panic: running, one already-finished and one
unfinished cached concurrent entry, a parked exclusive message, and a
pending acknowledgement. -/
def panickedCWA : ContextWithActor :=
  { ctx := { Context.new with state := ActorState.Running }
    actor := 0
    cache_mut := some ⟨9, false⟩
    cache_ref := [⟨1, true⟩, ⟨2, false⟩]
    drop_notify := some 5 }

/-- A stopping driver with a pending acknowledgement. -/
def stoppedNotifyCWA : ContextWithActor :=
  { stoppedCWA with drop_notify := some 5 }

/-- Witness for C8: the running branch prunes exactly the finished entry
and respawns; the stopping branch signals the acknowledgement instead. -/
theorem c8_panic_recovery_witness :
    (dropCWA true panickedCWA =
      ([Action.respawn],
       some { panickedCWA with
           cache_ref := panickedCWA.cache_ref.filter (fun m => !m.finished) })) ∧
    (dropCWA true stoppedNotifyCWA = ([Action.notifySent 5], none)) :=
  ⟨((c8_panic_recovery panickedCWA []).1 (by decide)).1,
   (c8_panic_recovery stoppedNotifyCWA []).2 (by decide)⟩

/-- C10: a hard-stop lifecycle request (`ActorState::Stop`) handled while
the concurrent cache is non-empty makes the loop exit immediately without
flushing: the iteration emits only `stopCalled`, the cached concurrent
messages remain unflushed in the final state, no concurrent handler is
ever started on this path, and the non-panicking teardown only signals the
acknowledgement — it never runs the cached handlers.  A graceful request
(`StopGraceful`), by contrast, does not force the loop to exit, so its
cache is still drained by later flush points. -/
theorem c10_hard_stop_skips_flush (s : ContextWithActor) (nt : Option Nat)
    (rest : List MailboxEvent) (hne : s.cache_ref ≠ []) :
    ((runLoop (MailboxEvent.recvMsg
        (ActorMessage.ActorState ActorState.Stop nt) :: rest) s).2.2 = true) ∧
    ((runLoop (MailboxEvent.recvMsg
        (ActorMessage.ActorState ActorState.Stop nt) :: rest) s).1 =
      [Action.stopCalled]) ∧
    ((runLoop (MailboxEvent.recvMsg
        (ActorMessage.ActorState ActorState.Stop nt) :: rest) s).2.1.cache_ref =
      s.cache_ref) ∧
    ((runLoop (MailboxEvent.recvMsg
        (ActorMessage.ActorState ActorState.Stop nt) :: rest) s).2.1.cache_ref ≠
      []) ∧
    (∀ m, Action.concStart m ∉ (runLoop (MailboxEvent.recvMsg
        (ActorMessage.ActorState ActorState.Stop nt) :: rest) s).1) ∧
    ((dropCWA false (runLoop (MailboxEvent.recvMsg
        (ActorMessage.ActorState ActorState.Stop nt) :: rest) s).2.1).2 =
      none) ∧
    (∀ m, Action.concStart m ∉ (dropCWA false (runLoop (MailboxEvent.recvMsg
        (ActorMessage.ActorState ActorState.Stop nt) :: rest) s).2.1).1) ∧
    ((handle_message (ActorMessage.ActorState ActorState.StopGraceful nt)
        s).2.2 = false) := by
  have hloop : runLoop (MailboxEvent.recvMsg
      (ActorMessage.ActorState ActorState.Stop nt) :: rest) s =
      ([Action.stopCalled],
       { s with drop_notify := nt, ctx := { s with drop_notify := nt }.ctx.stop },
       true) := by
    simp [runLoop, handle_message]
  refine ⟨by rw [hloop], by rw [hloop], by rw [hloop], ?_, ?_, ?_, ?_, ?_⟩
  · rw [hloop]
    exact hne
  · intro m
    rw [hloop]
    simp
  · rw [hloop]
    cases nt <;> simp [dropCWA, Context.stop]
  · intro m
    rw [hloop]
    cases nt <;> simp [dropCWA, Context.stop]
  · simp [handle_message]

/-- A running driver holding one cached concurrent message. -/
def busyCWA : ContextWithActor :=
  { runningCWA with cache_ref := [⟨3, false⟩] }

/-- Witness for C10 at a concrete busy driver. -/
theorem c10_hard_stop_skips_flush_witness :
    ((runLoop [MailboxEvent.recvMsg
        (ActorMessage.ActorState ActorState.Stop none)] busyCWA).1 =
      [Action.stopCalled]) ∧
    ((runLoop [MailboxEvent.recvMsg
        (ActorMessage.ActorState ActorState.Stop none)] busyCWA).2.1.cache_ref =
      busyCWA.cache_ref) :=
  ⟨(c10_hard_stop_skips_flush busyCWA none [] (by decide)).2.1,
   (c10_hard_stop_skips_flush busyCWA none [] (by decide)).2.2.1⟩

/-- Handling a Delay-token whose token is absent from `delay_queue` is a
no-op (`context.rs:362`, the missing-entry path). -/
theorem handle_message_delay_token_absent (t : Nat) (x : ContextWithActor)
    (h : x.ctx.delay_queue.containsTok t = false) :
    handle_message (ActorMessage.DelayToken t) x = ([], x, false) := by
  simp [handle_message, h]

/-- C9: the background task of `run_later`/`run_wait_later`.  If the
cancellation handle fires before the timer, the task sends exactly one
Delay-cancel message and never sends the Delay-token, and the driver's
handling of that cancel removes the registered entry without any handler
dispatch, so (even if a stale token later arrived) the scheduled handler is
never dispatched.  If the handle is dropped un-invoked, the task sends
exactly the same single Delay-token an undisturbed timer would send; the
entry is armed in `delay_queue` and is consumed when the token is handled,
so the delayed message fires exactly once. -/
theorem c9_later_cancellation (ctx : Context) (msg : ActorMessage)
    (s : ContextWithActor) (hwf : ctx.delay_queue.WF)
    (hs : s.ctx = (Context.later msg ctx).1) :
    laterTask (Context.later msg ctx).2 LaterOutcome.cancelled =
      [ActorMessage.DelayTokenCancel (Context.later msg ctx).2] ∧
    ActorMessage.DelayToken (Context.later msg ctx).2 ∉
      laterTask (Context.later msg ctx).2 LaterOutcome.cancelled ∧
    (handle_message (ActorMessage.DelayTokenCancel (Context.later msg ctx).2)
        s).1 = [] ∧
    ((handle_message (ActorMessage.DelayTokenCancel (Context.later msg ctx).2)
        s).2.1.ctx.delay_queue.get (Context.later msg ctx).2 = none) ∧
    (handle_message (ActorMessage.DelayToken (Context.later msg ctx).2)
        (handle_message (ActorMessage.DelayTokenCancel
          (Context.later msg ctx).2) s).2.1 =
      ([], (handle_message (ActorMessage.DelayTokenCancel
          (Context.later msg ctx).2) s).2.1, false)) ∧
    laterTask (Context.later msg ctx).2 LaterOutcome.handleDropped =
      laterTask (Context.later msg ctx).2 LaterOutcome.timerFired ∧
    laterTask (Context.later msg ctx).2 LaterOutcome.handleDropped =
      [ActorMessage.DelayToken (Context.later msg ctx).2] ∧
    s.ctx.delay_queue.get (Context.later msg ctx).2 = some msg ∧
    ((handle_message (ActorMessage.DelayToken (Context.later msg ctx).2)
        s).2.1.ctx.delay_queue.get (Context.later msg ctx).2 = none) := by
  have h8 : s.ctx.delay_queue.get (Context.later msg ctx).2 = some msg := by
    rw [hs]
    exact Slab.get_insert_self ctx.delay_queue msg hwf
  have h4 : (handle_message (ActorMessage.DelayTokenCancel
      (Context.later msg ctx).2) s).2.1.ctx.delay_queue.get
      (Context.later msg ctx).2 = none := by
    simpa [handle_message] using handle_delay_cancel_get_self
      (Context.later msg ctx).2 s.ctx
  refine ⟨rfl, by simp [laterTask], rfl, h4, ?_, rfl, rfl, h8, ?_⟩
  · have hcf := (Slab.containsTok_eq_false_iff
      (handle_message (ActorMessage.DelayTokenCancel
        (Context.later msg ctx).2) s).2.1.ctx.delay_queue
      (Context.later msg ctx).2).mpr h4
    exact handle_message_delay_token_absent _ _ hcf
  · have hct : s.ctx.delay_queue.containsTok (Context.later msg ctx).2 = true := by
      simp [Slab.containsTok, h8]
    cases msg with
    | Ref m => simp [handle_message, hct, h8, Slab.get_removeKey_self]
    | Mut m =>
      simp [handle_message, hct, h8, handle_exclusive_eq,
        Slab.get_removeKey_self]
    | DelayToken t2 => simp [handle_message, hct, h8, Slab.get_removeKey_self]
    | DelayTokenCancel t2 =>
      simp [handle_message, hct, h8, Slab.get_removeKey_self]
    | IntervalToken t2 =>
      simp [handle_message, hct, h8, Slab.get_removeKey_self]
    | IntervalTokenCancel t2 =>
      simp [handle_message, hct, h8, Slab.get_removeKey_self]
    | ActorState st nt => simp [handle_message, hct, h8, Slab.get_removeKey_self]

/-- A driver whose context just registered a delayed concurrent message. -/
def laterWitCWA : ContextWithActor :=
  ContextWithActor.new 0
    (Context.later (ActorMessage.Ref ⟨5, false⟩) Context.new).1

/-- Witness for C9 at a concrete schedule: the entry is armed after
`later`, and handling the cancel message removes it. -/
theorem c9_later_cancellation_witness :
    (laterWitCWA.ctx.delay_queue.get
        (Context.later (ActorMessage.Ref ⟨5, false⟩) Context.new).2 =
      some (ActorMessage.Ref ⟨5, false⟩)) ∧
    ((handle_message (ActorMessage.DelayTokenCancel
        (Context.later (ActorMessage.Ref ⟨5, false⟩) Context.new).2)
        laterWitCWA).2.1.ctx.delay_queue.get
        (Context.later (ActorMessage.Ref ⟨5, false⟩) Context.new).2 = none) :=
  ⟨(c9_later_cancellation Context.new (ActorMessage.Ref ⟨5, false⟩)
      laterWitCWA (by decide) (by rfl)).2.2.2.2.2.2.2.1,
   (c9_later_cancellation Context.new (ActorMessage.Ref ⟨5, false⟩)
      laterWitCWA (by decide) (by rfl)).2.2.2.1⟩

end ActixAsync
